import Mathlib

/-!
Verification of the record-keeping layer of the dental-office application
(`Examen_Sistema_Odontologico.py`): patient registry (`SistemaGestionPacientes`),
appointment book (`SistemaCitas`, an `Observable`), and treatment ledger
(`SistemaHistorialTratamientos`).

Modelling conventions, used throughout:
* Python objects are modelled as Lean structures; the methods that mutate
  `self` (or a `Paciente` argument) become functions returning the updated
  state next to the method's return value.
* Python object references (`cita.paciente`, the `cita` passed to
  `cancelar_cita`, the observers) are modelled by the objects' integer ids,
  which are unique by construction, so Python's identity-based `in`, `==`
  (no `__eq__` overrides exist) and `list.remove` become id comparisons.
* The class-level id counters (`Cita._contador_id`, `Tratamiento._contador_id`)
  are carried as a field of the system that creates those objects, matching
  the single-instance use in the program.
* `datetime.strptime` with the fixed patterns `%Y-%m-%d` and `%Y-%m-%d %H:%M`
  is embedded as `analizaFecha` / `analizaFechaHora`, reproducing CPython's
  `_strptime` regular expressions for those directives (`%Y` is exactly four
  digits; `%m`/`%H`/`%M` one or two digits with the documented ranges; `%d`
  additionally accepts a space-padded day, its last alternative ` [1-9]`) and
  for the format's whitespace (compiled to `\s+`: one or more whitespace
  characters separate the date from the time), followed by `datetime`'s own
  calendar validation (year at least 1, day at most the month's length).
  A `ValueError` is `none`.
* Methods that show an error dialog and return `None` are modelled as
  returning `none` (or a tagged `Except.error` where the source distinguishes
  two dialogs, as `agendar_cita` does).
* The functions are pure: no modelled operation can touch any collection it
  is not given and does not return.
The unused `disponibilidad` dictionary of `SistemaCitas` is never consulted
by any modelled operation and is omitted.
-/

/-- Is `c` an ASCII digit (the `\d` of CPython's `_strptime` patterns)? -/
def esDigito (c : Char) : Bool := '0' ≤ c && c ≤ '9'

/-- Numeric value of an ASCII digit. -/
def valorDigito (c : Char) : Nat := c.toNat - '0'.toNat

/-- ASCII whitespace: what the regex class `\s` matches on ASCII text and
what `str.strip()` strips (space, tab, newline, carriage return, vertical
tab, form feed; the strings this program handles are ASCII). -/
def pyEsEspacio (c : Char) : Bool :=
  c = ' ' || c = '\t' || c = '\n' || c = '\r' || c = '\x0b' || c = '\x0c'

/-- `%Y`: exactly four digits (CPython `_strptime` pattern `\d\d\d\d`). -/
def tomaAnio : List Char → Option (Nat × List Char)
  | a :: b :: c :: d :: resto =>
    if esDigito a && esDigito b && esDigito c && esDigito d then
      some (valorDigito a * 1000 + valorDigito b * 100 + valorDigito c * 10 + valorDigito d,
        resto)
    else none
  | _ => none

/-- `%m`: CPython pattern `1[0-2]|0[1-9]|[1-9]`, alternatives tried in order.
No backtracking is needed: whenever a two-digit alternative matches, the
one-digit alternative would leave the parse at a digit where every following
pattern element (a literal or the end) fails. -/
def tomaMes : List Char → Option (Nat × List Char)
  | c :: c2 :: resto =>
    if c = '1' && '0' ≤ c2 && c2 ≤ '2' then some (10 + valorDigito c2, resto)
    else if c = '0' && '1' ≤ c2 && c2 ≤ '9' then some (valorDigito c2, resto)
    else if '1' ≤ c && c ≤ '9' then some (valorDigito c, c2 :: resto)
    else none
  | [c] => if '1' ≤ c && c ≤ '9' then some (valorDigito c, []) else none
  | [] => none

/-- `%d`: CPython pattern `3[0-1]|[1-2]\d|0[1-9]|[1-9]| [1-9]`, alternatives
in order; the final alternative accepts a space-padded single-digit day. -/
def tomaDia : List Char → Option (Nat × List Char)
  | c :: c2 :: resto =>
    if c = '3' && ('0' ≤ c2 && c2 ≤ '1') then some (30 + valorDigito c2, resto)
    else if ('1' ≤ c && c ≤ '2') && esDigito c2 then
      some (valorDigito c * 10 + valorDigito c2, resto)
    else if c = '0' && '1' ≤ c2 && c2 ≤ '9' then some (valorDigito c2, resto)
    else if '1' ≤ c && c ≤ '9' then some (valorDigito c, c2 :: resto)
    else if c = ' ' && '1' ≤ c2 && c2 ≤ '9' then some (valorDigito c2, resto)
    else none
  | [c] => if '1' ≤ c && c ≤ '9' then some (valorDigito c, []) else none
  | [] => none

/-- `%H`: CPython pattern `2[0-3]|[0-1]\d|\d`, alternatives in order. -/
def tomaHora : List Char → Option (Nat × List Char)
  | c :: c2 :: resto =>
    if c = '2' && ('0' ≤ c2 && c2 ≤ '3') then some (20 + valorDigito c2, resto)
    else if ('0' ≤ c && c ≤ '1') && esDigito c2 then
      some (valorDigito c * 10 + valorDigito c2, resto)
    else if esDigito c then some (valorDigito c, c2 :: resto)
    else none
  | [c] => if esDigito c then some (valorDigito c, []) else none
  | [] => none

/-- `%M`: CPython pattern `[0-5]\d|\d`, alternatives in order. -/
def tomaMinuto : List Char → Option (Nat × List Char)
  | c :: c2 :: resto =>
    if ('0' ≤ c && c ≤ '5') && esDigito c2 then
      some (valorDigito c * 10 + valorDigito c2, resto)
    else if esDigito c then some (valorDigito c, c2 :: resto)
    else none
  | [c] => if esDigito c then some (valorDigito c, []) else none
  | [] => none

/-- A literal character of the format string. -/
def tomaLiteral (c : Char) : List Char → Option (List Char)
  | x :: resto => if x = c then some resto else none
  | [] => none

/-- Whitespace in the format string: `_strptime` compiles any whitespace run
of the format into the regex `\s+`, one or more whitespace characters.  The
greedy maximal run is faithful because the pattern element that follows (an
`%H` digit alternative) never matches a whitespace character. -/
def tomaEspacios : List Char → Option (List Char)
  | c :: resto =>
    if pyEsEspacio c then some (resto.dropWhile pyEsEspacio) else none
  | [] => none

/-- Gregorian leap year, as `datetime`'s calendar implements it. -/
def esBisiesto (a : Nat) : Bool := a % 4 = 0 && (!(a % 100 = 0) || a % 400 = 0)

/-- Number of days of month `m` of year `a`. -/
def diasEnMes (a m : Nat) : Nat :=
  if m = 2 then (if esBisiesto a then 29 else 28)
  else if m = 4 || m = 6 || m = 9 || m = 11 then 30
  else 31

/-- A calendar date as `datetime.date` holds it. -/
structure Fecha where
  anio : Nat
  mes : Nat
  dia : Nat
deriving DecidableEq, Repr

/-- A date and time as the `datetime` objects stored in `Cita.fecha_hora`
hold it (seconds and finer are always zero under these formats). -/
structure FechaHora where
  fecha : Fecha
  hora : Nat
  minuto : Nat
deriving DecidableEq, Repr

/-- The validation `datetime(year, month, day)` performs on a candidate that
already matched the textual pattern: `MINYEAR = 1 ≤ year` (four digits cap it
below `MAXYEAR`), and the day fits the month.  The pattern already bounds the
month to `1..12` and the day to `1..31`. -/
def fechaValida (f : Fecha) : Bool := 1 ≤ f.anio && f.dia ≤ diasEnMes f.anio f.mes

/-- `datetime.strptime(s, "%Y-%m-%d")`, as an `Option`: `none` is `ValueError`
(pattern mismatch, unconverted trailing data, or an invalid calendar day). -/
def analizaFecha (s : String) : Option Fecha := do
  let (anio, r1) ← tomaAnio s.data
  let r2 ← tomaLiteral '-' r1
  let (mes, r3) ← tomaMes r2
  let r4 ← tomaLiteral '-' r3
  let (dia, r5) ← tomaDia r4
  match r5 with
  | [] => if fechaValida ⟨anio, mes, dia⟩ then some ⟨anio, mes, dia⟩ else none
  | _ => none

/-- `datetime.strptime(s, "%Y-%m-%d %H:%M")`, as an `Option`. -/
def analizaFechaHora (s : String) : Option FechaHora := do
  let (anio, r1) ← tomaAnio s.data
  let r2 ← tomaLiteral '-' r1
  let (mes, r3) ← tomaMes r2
  let r4 ← tomaLiteral '-' r3
  let (dia, r5) ← tomaDia r4
  let r6 ← tomaEspacios r5
  let (hora, r7) ← tomaHora r6
  let r8 ← tomaLiteral ':' r7
  let (minuto, r9) ← tomaMinuto r8
  match r9 with
  | [] =>
    if fechaValida ⟨anio, mes, dia⟩ then some ⟨⟨anio, mes, dia⟩, hora, minuto⟩ else none
  | _ => none

/-- The class `Tratamiento`.  `paciente` (a reference) is modelled by the
patient's id; `fecha` keeps only the date the parsed `datetime` carries. -/
structure Tratamiento where
  idTratamiento : Nat
  pacienteId : Nat
  fecha : Fecha
  descripcion : String
  odontologo : String
deriving DecidableEq, Repr

/-- The class `Paciente` (`fecha_nacimiento` is stored as the raw string, as
the source does). -/
structure Paciente where
  idPaciente : Nat
  nombre : String
  telefono : String
  direccion : String
  fechaNacimiento : String
  historialMedico : String
  tratamientos : List Tratamiento
deriving DecidableEq, Repr

/-- The `estado` field of `Cita`: the strings "Programada", "Completada",
"Cancelada". -/
inductive EstadoCita where
  | Programada
  | Completada
  | Cancelada
deriving DecidableEq, Repr

/-- The class `Cita`; `paciente` is modelled by the patient's id. -/
structure Cita where
  idCita : Nat
  pacienteId : Nat
  fechaHora : FechaHora
  motivo : String
  estado : EstadoCita
deriving DecidableEq, Repr

/-- The Observer base class `Observable` keeps `_observadores`, a Python list
of observer references; observers are modelled by integer identities. -/
def adjuntar (observadores : List Nat) (o : Nat) : List Nat :=
  if observadores.contains o then observadores else observadores ++ [o]

/-- `Observable.separar`: `self._observadores.remove(observador)` removes the
first occurrence; on an absent element `list.remove` raises `ValueError`,
modelled by `none`. -/
def separar (observadores : List Nat) (o : Nat) : Option (List Nat) :=
  match observadores with
  | [] => none
  | x :: resto =>
    if x = o then some resto else (separar resto o).map (fun r => x :: r)

/-- `Observable.notificar`: calls `observador.actualizar(mensaje)` on each
observer in list order; the value is the sequence of deliveries performed. -/
def notificar (observadores : List Nat) (mensaje : String) : List (Nat × String) :=
  observadores.map (fun o => (o, mensaje))

/-- State of `SistemaGestionPacientes`. -/
structure SistemaGestionPacientes where
  pacientes : List Paciente
  siguienteIdPaciente : Nat
deriving DecidableEq, Repr

/-- `SistemaGestionPacientes.__init__`. -/
def sistemaPacientesInicial : SistemaGestionPacientes :=
  { pacientes := [], siguienteIdPaciente := 1 }

/-- `SistemaGestionPacientes.registrar_paciente`: validates the birth date
with `strptime("%Y-%m-%d")`; on `ValueError` shows the format-error dialog and
returns `None`; otherwise builds the `Paciente`, appends it, bumps the
counter, and returns it. -/
def registrar_paciente (s : SistemaGestionPacientes)
    (nombre telefono direccion fechaNacimiento historialMedico : String) :
    Option Paciente × SistemaGestionPacientes :=
  match analizaFecha fechaNacimiento with
  | none => (none, s)
  | some _ =>
    let p : Paciente :=
      ⟨s.siguienteIdPaciente, nombre, telefono, direccion, fechaNacimiento,
        historialMedico, []⟩
    (some p,
      { pacientes := s.pacientes ++ [p],
        siguienteIdPaciente := s.siguienteIdPaciente + 1 })

/-- `SistemaGestionPacientes.buscar_paciente_por_id`: linear scan, first
match. -/
def buscar_paciente_por_id (s : SistemaGestionPacientes) (idPac : Nat) :
    Option Paciente :=
  s.pacientes.find? (fun p => p.idPaciente == idPac)

/-- Python truthiness of an optional string argument: `None` and `""` are
falsy, everything else truthy. -/
def pyCierto : Option String → Bool
  | none => false
  | some v => !(v = "")

/-- The new value of one field under `Paciente.actualizar_info`:
`if nuevo: campo = nuevo`. -/
def campoActualizado (nuevo : Option String) (actual : String) : String :=
  if pyCierto nuevo then nuevo.getD actual else actual

/-- `Paciente.actualizar_info`: overwrites each of the five fields whose
supplied value is truthy; never touches `id_paciente` or `tratamientos`. -/
def actualizar_info (p : Paciente)
    (nombre telefono direccion fechaNacimiento historialMedico : Option String) :
    Paciente :=
  { p with
    nombre := campoActualizado nombre p.nombre,
    telefono := campoActualizado telefono p.telefono,
    direccion := campoActualizado direccion p.direccion,
    fechaNacimiento := campoActualizado fechaNacimiento p.fechaNacimiento,
    historialMedico := campoActualizado historialMedico p.historialMedico }

/-- In-place mutation of the object `buscar_paciente_por_id` returned: the
first list entry carrying the id is replaced, everything else untouched. -/
def actualizaPrimerPaciente (idPac : Nat) (f : Paciente → Paciente) :
    List Paciente → List Paciente
  | [] => []
  | p :: resto =>
    if p.idPaciente == idPac then f p :: resto
    else p :: actualizaPrimerPaciente idPac f resto

/-- `SistemaGestionPacientes.actualizar_paciente`: looks the patient up by id;
if found calls `actualizar_info` on it and returns `True`, else `False`. -/
def actualizar_paciente (s : SistemaGestionPacientes) (idPac : Nat)
    (nombre telefono direccion fechaNacimiento historialMedico : Option String) :
    Bool × SistemaGestionPacientes :=
  match buscar_paciente_por_id s idPac with
  | some _ =>
    (true,
      { s with
        pacientes := actualizaPrimerPaciente idPac
          (fun p => actualizar_info p nombre telefono direccion
            fechaNacimiento historialMedico) s.pacientes })
  | none => (false, s)

/-- `SistemaGestionPacientes.obtener_todos_los_pacientes`. -/
def obtener_todos_los_pacientes (s : SistemaGestionPacientes) : List Paciente :=
  s.pacientes

/-- The two error dialogs `agendar_cita` can show before returning `None`:
"Fecha y Hora debe ser AAAA-MM-DD HH:MM." and "Horario ... ya ocupado.". -/
inductive ErrorAgenda where
  | formatoInvalido
  | horarioOcupado
deriving DecidableEq, Repr

/-- State of `SistemaCitas` (an `Observable`), together with the class-level
counter `Cita._contador_id`. -/
structure SistemaCitas where
  observadores : List Nat
  citas : List Cita
  contadorIdCita : Nat
deriving DecidableEq, Repr

/-- `SistemaCitas.__init__` with the counter at its process-start value. -/
def sistemaCitasInicial : SistemaCitas :=
  { observadores := [], citas := [], contadorIdCita := 0 }

/-- `SistemaCitas.agendar_cita`: parse `fecha_hora_str`; on `ValueError` show
the format dialog and return `None`; then scan for an existing appointment
with the same parsed datetime and state "Programada" ("slot taken" dialog,
`None`); otherwise construct the `Cita` (its constructor bumps the class
counter and stamps the state "Programada"), append it and return it. -/
def agendar_cita (s : SistemaCitas) (pacienteId : Nat)
    (fechaHoraStr motivo : String) : Except ErrorAgenda Cita × SistemaCitas :=
  match analizaFechaHora fechaHoraStr with
  | none => (.error .formatoInvalido, s)
  | some dt =>
    if s.citas.any (fun c => c.fechaHora == dt && c.estado == .Programada) then
      (.error .horarioOcupado, s)
    else
      let nueva : Cita :=
        ⟨s.contadorIdCita + 1, pacienteId, dt, motivo, .Programada⟩
      (.ok nueva,
        { s with
          citas := s.citas ++ [nueva],
          contadorIdCita := s.contadorIdCita + 1 })

/-- In-place mutation `cita.estado = "Cancelada"` of the object passed to
`cancelar_cita`: the first list entry carrying its id is the object. -/
def cancelaPrimeraCita (idCita : Nat) : List Cita → List Cita
  | [] => []
  | c :: resto =>
    if c.idCita == idCita then { c with estado := .Cancelada } :: resto
    else c :: cancelaPrimeraCita idCita resto

/-- `SistemaCitas.cancelar_cita`: if the appointment is in the list (identity
membership, modelled by id), set its state to "Cancelada" and return `True`;
otherwise return `False` and change nothing. -/
def cancelar_cita (s : SistemaCitas) (idCita : Nat) : Bool × SistemaCitas :=
  if s.citas.any (fun c => c.idCita == idCita) then
    (true, { s with citas := cancelaPrimeraCita idCita s.citas })
  else (false, s)

/-- `SistemaCitas.obtener_citas_por_paciente`: the appointments referencing
this patient whose state is "Programada", in list order. -/
def obtener_citas_por_paciente (s : SistemaCitas) (pacienteId : Nat) :
    List Cita :=
  s.citas.filter (fun c => c.pacienteId == pacienteId && c.estado == .Programada)

/-- `SistemaCitas.obtener_todas_las_citas_programadas`. -/
def obtener_todas_las_citas_programadas (s : SistemaCitas) : List Cita :=
  s.citas.filter (fun c => c.estado == .Programada)

/-- State of `SistemaHistorialTratamientos`, together with the class-level
counter `Tratamiento._contador_id`. -/
structure SistemaHistorialTratamientos where
  registroTratamientos : List Tratamiento
  contadorIdTratamiento : Nat
deriving DecidableEq, Repr

/-- `SistemaHistorialTratamientos.registrar_tratamiento`: parse `fecha_str`
("%Y-%m-%d"); on `ValueError` show the format dialog and return `None`;
otherwise construct the `Tratamiento` (its constructor bumps the class
counter), append it to the patient's own history and to the global ledger,
and return it.  The updated patient is returned next to the updated ledger,
since the source mutates the `paciente` argument in place. -/
def registrar_tratamiento (s : SistemaHistorialTratamientos) (p : Paciente)
    (fechaStr descripcion odontologo : String) :
    Option Tratamiento × Paciente × SistemaHistorialTratamientos :=
  match analizaFecha fechaStr with
  | none => (none, p, s)
  | some f =>
    let t : Tratamiento :=
      ⟨s.contadorIdTratamiento + 1, p.idPaciente, f, descripcion, odontologo⟩
    (some t,
      { p with tratamientos := p.tratamientos ++ [t] },
      { registroTratamientos := s.registroTratamientos ++ [t],
        contadorIdTratamiento := s.contadorIdTratamiento + 1 })

/-- `SistemaHistorialTratamientos.obtener_tratamientos_por_paciente`: returns
the patient's own history directly. -/
def obtener_tratamientos_por_paciente (p : Paciente) : List Tratamiento :=
  p.tratamientos

/-- `str.strip()`: drop whitespace from both ends. -/
def pyStrip (s : String) : String :=
  ⟨((s.data.dropWhile pyEsEspacio).reverse.dropWhile pyEsEspacio).reverse⟩

/-- `str.lower()` (ASCII case folding; the descriptions grouped by this
program's tally are ASCII). -/
def pyLower (s : String) : String := ⟨s.data.map Char.toLower⟩

/-- The normalised grouping key `tratamiento.descripcion.strip().lower()`. -/
def claveDescripcion (t : Tratamiento) : String := pyLower (pyStrip t.descripcion)

/-- `conteo_tratamientos[desc] = conteo_tratamientos.get(desc, 0) + 1` on an
insertion-ordered dictionary (a Python `dict`), modelled as an association
list: an existing key is bumped in place, a new key is appended. -/
def incrementaClave (clave : String) : List (String × Nat) → List (String × Nat)
  | [] => [(clave, 1)]
  | (k, n) :: resto =>
    if k = clave then (k, n + 1) :: resto
    else (k, n) :: incrementaClave clave resto

/-- The counting loop of `obtener_tratamientos_mas_comunes`. -/
def conteoTratamientos (ts : List Tratamiento) : List (String × Nat) :=
  ts.foldl (fun acc t => incrementaClave (claveDescripcion t) acc) []

/-- One step of a stable insertion sort by count, descending: the new element
goes after every earlier element whose count is at least as large (Python's
`sorted` with `key=item[1], reverse=True` is stable, so its output is the
unique count-descending reordering that keeps ties in scan order; a stable
insertion sort produces exactly that list). -/
def insertaDesc (x : String × Nat) : List (String × Nat) → List (String × Nat)
  | [] => [x]
  | y :: resto => if x.2 > y.2 then x :: y :: resto else y :: insertaDesc x resto

/-- `sorted(conteo_tratamientos.items(), key=item[1], reverse=True)`. -/
def ordenaDesc (l : List (String × Nat)) : List (String × Nat) :=
  l.foldl (fun acc x => insertaDesc x acc) []

/-- `SistemaHistorialTratamientos.obtener_tratamientos_mas_comunes`: empty
dict for an empty ledger, else count by normalised description, sort by count
descending (stable), keep the first `top_n` items. -/
def obtener_tratamientos_mas_comunes (s : SistemaHistorialTratamientos)
    (topN : Nat := 5) : List (String × Nat) :=
  if s.registroTratamientos.isEmpty then []
  else (ordenaDesc (conteoTratamientos s.registroTratamientos)).take topN

/-- `strftime` zero-padded two-digit field. -/
def pad2 (n : Nat) : String := if n < 10 then "0" ++ toString n else toString n

/-- `cita.fecha_hora.strftime("%H:%M")`. -/
def formatoHoraMinuto (fh : FechaHora) : String :=
  pad2 fh.hora ++ ":" ++ pad2 fh.minuto

/-- One report line of `ReporteCitasPorDia.generar`; `nombreDe` dereferences
`cita.paciente.nombre` from the modelled patient reference. -/
def lineaCita (nombreDe : Nat → String) (c : Cita) : String :=
  "- " ++ nombreDe c.pacienteId ++ " a las " ++ formatoHoraMinuto c.fechaHora ++
    " (" ++ c.motivo ++ ")\n"

/-- The report's fixed two header lines. -/
def cabeceraReporte (fechaStr : String) : String :=
  "Citas Programadas para el " ++ fechaStr ++
    ":\n--------------------------------------\n"

/-- `ReporteCitasPorDia.generar`: `entrada` is what `askstring` returned
(`none` is a dismissed dialog).  An empty or missing date yields the
cancellation text; an unparsable one the format text; otherwise the loop over
every appointment (its state never inspected) appends a line for each one
whose date component equals the target and counts it. -/
def reporte_citas_por_dia_generar (entrada : Option String)
    (nombreDe : Nat → String) (citas : List Cita) : String :=
  match entrada with
  | none => "Generación de reporte cancelada."
  | some fechaStr =>
    if fechaStr = "" then "Generación de reporte cancelada."
    else
      match analizaFecha fechaStr with
      | none => "Formato de fecha inválido. Use AAAA-MM-DD."
      | some fechaObjetivo =>
        let (cuerpo, contador) := citas.foldl
          (fun (acc : String × Nat) c =>
            if c.fechaHora.fecha == fechaObjetivo then
              (acc.1 ++ lineaCita nombreDe c, acc.2 + 1)
            else acc)
          ("", 0)
        cabeceraReporte fechaStr ++ cuerpo ++
          (if contador = 0 then "No hay citas programadas para esta fecha.\n" else "") ++
          "\nTotal de citas: " ++ toString contador ++ "\n"

/-! ## Helper lemmas -/

/-- Replacing the first id match inside a decomposed patient list. -/
theorem actualizaPrimerPaciente_append (idPac : Nat) (f : Paciente → Paciente)
    (antes : List Paciente) (p : Paciente) (despues : List Paciente)
    (hAntes : ∀ q ∈ antes, q.idPaciente ≠ idPac) (hp : p.idPaciente = idPac) :
    actualizaPrimerPaciente idPac f (antes ++ p :: despues) =
      antes ++ f p :: despues := by
  induction antes with
  | nil => simp [actualizaPrimerPaciente, hp]
  | cons q resto ih =>
    have hq : q.idPaciente ≠ idPac := hAntes q (by simp)
    simp only [List.cons_append, actualizaPrimerPaciente, beq_iff_eq, hq, if_false]
    exact congrArg (q :: ·) (ih fun r hr => hAntes r (by simp [hr]))

/-- Replacing the first id match inside a decomposed appointment list. -/
theorem cancelaPrimeraCita_append (idCita : Nat)
    (antes : List Cita) (c : Cita) (despues : List Cita)
    (hAntes : ∀ c0 ∈ antes, c0.idCita ≠ idCita) (hc : c.idCita = idCita) :
    cancelaPrimeraCita idCita (antes ++ c :: despues) =
      antes ++ { c with estado := EstadoCita.Cancelada } :: despues := by
  induction antes with
  | nil => simp [cancelaPrimeraCita, hc]
  | cons c0 resto ih =>
    have h0 : c0.idCita ≠ idCita := hAntes c0 (by simp)
    simp only [List.cons_append, cancelaPrimeraCita, beq_iff_eq, h0, if_false]
    exact congrArg (c0 :: ·) (ih fun r hr => hAntes r (by simp [hr]))

/-! ## The claims -/

/-- Claim C3: a `register` call whose birth date does not parse as
`YYYY-MM-DD` (for instance "15/05/1980") fails and leaves the registry —
patients and next-id counter — completely unchanged, so any subsequent
registration behaves exactly as it would have before the failed call; on a
parsable birth date the new patient is stored and returned. -/
theorem registrar_paciente_espec (s : SistemaGestionPacientes)
    (nombre telefono direccion fechaNacimiento historialMedico : String) :
    (analizaFecha fechaNacimiento = none →
      registrar_paciente s nombre telefono direccion fechaNacimiento
          historialMedico = (none, s) ∧
      ∀ n2 t2 d2 f2 h2,
        registrar_paciente (registrar_paciente s nombre telefono direccion
            fechaNacimiento historialMedico).2 n2 t2 d2 f2 h2 =
          registrar_paciente s n2 t2 d2 f2 h2) ∧
    (analizaFecha fechaNacimiento ≠ none →
      registrar_paciente s nombre telefono direccion fechaNacimiento
          historialMedico =
        (some ⟨s.siguienteIdPaciente, nombre, telefono, direccion,
            fechaNacimiento, historialMedico, []⟩,
          ⟨s.pacientes ++ [⟨s.siguienteIdPaciente, nombre, telefono, direccion,
              fechaNacimiento, historialMedico, []⟩],
            s.siguienteIdPaciente + 1⟩)) ∧
    analizaFecha "15/05/1980" = none := by
  refine ⟨fun h => ?_, fun h => ?_, by decide⟩
  · simp [registrar_paciente, h]
  · match hf : analizaFecha fechaNacimiento with
    | none => exact absurd hf h
    | some f => simp [registrar_paciente, hf]

/-- Claim C7: `update` returns `false` and changes nothing when no patient
has the given id; on the first patient with the id it returns `true` and
rewrites exactly the fields whose supplied value is non-empty and non-null,
leaves empty or null fields (and the id and treatments) unchanged, and
performs no date-format re-validation: a malformed birth-date string such as
"15/05/1980" (which does not parse) is stored as given. -/
theorem actualizar_paciente_espec (s : SistemaGestionPacientes) (idPac : Nat)
    (nombre telefono direccion fechaNacimiento historialMedico : Option String) :
    ((∀ p ∈ s.pacientes, p.idPaciente ≠ idPac) →
      actualizar_paciente s idPac nombre telefono direccion fechaNacimiento
        historialMedico = (false, s)) ∧
    (∀ antes p despues, s.pacientes = antes ++ p :: despues →
      p.idPaciente = idPac → (∀ q ∈ antes, q.idPaciente ≠ idPac) →
      actualizar_paciente s idPac nombre telefono direccion fechaNacimiento
          historialMedico =
        (true, ⟨antes ++ actualizar_info p nombre telefono direccion
            fechaNacimiento historialMedico :: despues, s.siguienteIdPaciente⟩)) ∧
    (∀ p : Paciente,
      (actualizar_info p nombre telefono direccion fechaNacimiento
          historialMedico).idPaciente = p.idPaciente ∧
      (actualizar_info p nombre telefono direccion fechaNacimiento
          historialMedico).tratamientos = p.tratamientos ∧
      (∀ v, nombre = some v → v ≠ "" →
        (actualizar_info p nombre telefono direccion fechaNacimiento
          historialMedico).nombre = v) ∧
      (nombre = none ∨ nombre = some "" →
        (actualizar_info p nombre telefono direccion fechaNacimiento
          historialMedico).nombre = p.nombre) ∧
      (∀ v, telefono = some v → v ≠ "" →
        (actualizar_info p nombre telefono direccion fechaNacimiento
          historialMedico).telefono = v) ∧
      (telefono = none ∨ telefono = some "" →
        (actualizar_info p nombre telefono direccion fechaNacimiento
          historialMedico).telefono = p.telefono) ∧
      (∀ v, direccion = some v → v ≠ "" →
        (actualizar_info p nombre telefono direccion fechaNacimiento
          historialMedico).direccion = v) ∧
      (direccion = none ∨ direccion = some "" →
        (actualizar_info p nombre telefono direccion fechaNacimiento
          historialMedico).direccion = p.direccion) ∧
      (∀ v, fechaNacimiento = some v → v ≠ "" →
        (actualizar_info p nombre telefono direccion fechaNacimiento
          historialMedico).fechaNacimiento = v) ∧
      (fechaNacimiento = none ∨ fechaNacimiento = some "" →
        (actualizar_info p nombre telefono direccion fechaNacimiento
          historialMedico).fechaNacimiento = p.fechaNacimiento) ∧
      (∀ v, historialMedico = some v → v ≠ "" →
        (actualizar_info p nombre telefono direccion fechaNacimiento
          historialMedico).historialMedico = v) ∧
      (historialMedico = none ∨ historialMedico = some "" →
        (actualizar_info p nombre telefono direccion fechaNacimiento
          historialMedico).historialMedico = p.historialMedico)) ∧
    (∀ p : Paciente,
      (actualizar_info p none none none (some "15/05/1980") none).fechaNacimiento
        = "15/05/1980") := by
  refine ⟨fun h => ?_, fun antes p despues hdec hp hAntes => ?_, fun p => ?_,
    fun p => by simp [actualizar_info, campoActualizado, pyCierto]⟩
  · have : buscar_paciente_por_id s idPac = none := by
      simp only [buscar_paciente_por_id, List.find?_eq_none, beq_iff_eq]
      exact fun p hp => h p hp
    simp [actualizar_paciente, this]
  · have hfind : buscar_paciente_por_id s idPac = some p := by
      simp only [buscar_paciente_por_id, hdec]
      rw [List.find?_append]
      have h1 : (antes.find? fun q => q.idPaciente == idPac) = none := by
        simp only [List.find?_eq_none, beq_iff_eq]
        exact fun q hq => hAntes q hq
      simp [h1, List.find?_cons, hp]
    simp only [actualizar_paciente, hfind, hdec]
    rw [actualizaPrimerPaciente_append idPac _ antes p despues hAntes hp]
  · refine ⟨rfl, rfl, ?_⟩
    constructor
    · rintro v rfl hv
      simp [actualizar_info, campoActualizado, pyCierto, hv]
    constructor
    · rintro (rfl | rfl) <;> simp [actualizar_info, campoActualizado, pyCierto]
    constructor
    · rintro v rfl hv
      simp [actualizar_info, campoActualizado, pyCierto, hv]
    constructor
    · rintro (rfl | rfl) <;> simp [actualizar_info, campoActualizado, pyCierto]
    constructor
    · rintro v rfl hv
      simp [actualizar_info, campoActualizado, pyCierto, hv]
    constructor
    · rintro (rfl | rfl) <;> simp [actualizar_info, campoActualizado, pyCierto]
    constructor
    · rintro v rfl hv
      simp [actualizar_info, campoActualizado, pyCierto, hv]
    constructor
    · rintro (rfl | rfl) <;> simp [actualizar_info, campoActualizado, pyCierto]
    constructor
    · rintro v rfl hv
      simp [actualizar_info, campoActualizado, pyCierto, hv]
    · rintro (rfl | rfl) <;> simp [actualizar_info, campoActualizado, pyCierto]

/-- Each delivery `notificar` performs to a given observer with the notified
text corresponds to one occurrence of that observer in the subscriber list. -/
theorem count_notificar (l : List Nat) (o : Nat) (m : String) :
    (notificar l m).count (o, m) = l.count o := by
  induction l with
  | nil => rfl
  | cons x resto ih =>
    simp only [notificar, List.map_cons, List.count_cons] at *
    rw [ih]
    by_cases hx : x = o <;> simp [hx, Prod.ext_iff]

/-- `adjuntar` never duplicates an entry. -/
theorem adjuntar_nodup (l : List Nat) (o : Nat) (h : l.Nodup) :
    (adjuntar l o).Nodup := by
  unfold adjuntar
  by_cases ho : o ∈ l
  · simp [ho, h]
  · rw [if_neg (by simpa using ho)]
    rw [List.nodup_append]
    exact ⟨h, List.nodup_singleton o, by simpa [List.disjoint_singleton] using ho⟩

/-- Claim C8: subscribing an already-subscribed listener is a no-op (after
subscribing the same listener twice `notificar` delivers the text to it
exactly once), and `notificar` delivers the text synchronously to every
current subscriber exactly once, in subscription order. -/
theorem observable_notificacion_espec (observadores : List Nat) (o : Nat)
    (mensaje : String) :
    adjuntar (adjuntar observadores o) o = adjuntar observadores o ∧
    ((notificar observadores mensaje).map Prod.fst = observadores ∧
      ∀ e ∈ notificar observadores mensaje, e.2 = mensaje) ∧
    (observadores.Nodup → (adjuntar observadores o).Nodup) ∧
    (observadores.Nodup → ∀ o2 ∈ adjuntar observadores o,
      (notificar (adjuntar observadores o) mensaje).count (o2, mensaje) = 1) ∧
    (observadores.Nodup →
      (notificar (adjuntar (adjuntar observadores o) o) mensaje).count
        (o, mensaje) = 1) := by
  have hidem : adjuntar (adjuntar observadores o) o = adjuntar observadores o := by
    unfold adjuntar
    by_cases ho : o ∈ observadores
    · simp [ho]
    · simp [ho]
  have hcount : ∀ o2 ∈ adjuntar observadores o, observadores.Nodup →
      (notificar (adjuntar observadores o) mensaje).count (o2, mensaje) = 1 := by
    intro o2 h2 hnd
    rw [count_notificar]
    exact List.count_eq_one_of_mem (adjuntar_nodup observadores o hnd) h2
  have hmapa : (notificar observadores mensaje).map Prod.fst = observadores := by
    unfold notificar
    rw [List.map_map]
    exact List.map_id observadores
  refine ⟨hidem, ⟨hmapa, by simp [notificar]⟩,
    adjuntar_nodup observadores o, fun hnd o2 h2 => hcount o2 h2 hnd, fun hnd => ?_⟩
  rw [hidem]
  refine hcount o ?_ hnd
  unfold adjuntar
  by_cases ho : o ∈ observadores
  · simp [ho]
  · simp [ho]

/-- Claim C10: `Observable.separar` on a listener that is not currently
subscribed reaches `list.remove`'s `ValueError` (modelled by `none`) rather
than acting as a silent no-op; on a subscribed listener it removes the first
occurrence and succeeds. -/
theorem separar_espec (observadores : List Nat) (o : Nat) :
    (o ∉ observadores → separar observadores o = none) ∧
    (o ∈ observadores → ∃ resto, separar observadores o = some resto) ∧
    (∀ antes despues, observadores = antes ++ o :: despues → o ∉ antes →
      separar observadores o = some (antes ++ despues)) := by
  refine ⟨?_, ?_, ?_⟩
  · intro h
    induction observadores with
    | nil => rfl
    | cons x resto ih =>
      have hx : x ≠ o := by rintro rfl; exact h (by simp)
      simp only [separar, hx, if_false]
      rw [ih (fun hm => h (by simp [hm]))]
      rfl
  · intro h
    induction observadores with
    | nil => cases h
    | cons x resto ih =>
      by_cases hx : x = o
      · exact ⟨resto, by simp [separar, hx]⟩
      · have hm : o ∈ resto := by
          cases h with
          | head => exact absurd rfl hx
          | tail _ hm => exact hm
        obtain ⟨r, hr⟩ := ih hm
        exact ⟨x :: r, by simp [separar, hx, hr]⟩
  · intro antes despues hdec hno
    subst hdec
    induction antes with
    | nil => simp [separar]
    | cons x resto ih =>
      have hx : x ≠ o := by rintro rfl; exact hno (by simp)
      simp only [List.cons_append, separar, hx, if_false, List.append_eq]
      rw [ih (fun hm => hno (by simp [hm]))]
      rfl

/-- Claim C2: `cancelar_cita` returns `True` exactly when the appointment is
a member of the collection, and then sets that appointment's state to
"Cancelada" — whatever its current state was, so re-cancelling succeeds
silently — touching nothing else: the appointment stays in the collection in
its position, its other fields and every other appointment are unchanged, and
afterwards it no longer appears in `obtener_citas_por_paciente` for its
patient.  When the appointment is not a member it returns `False` and the
state is untouched. -/
theorem cancelar_cita_espec (s : SistemaCitas) (idCita : Nat) :
    ((cancelar_cita s idCita).1 = true ↔ ∃ c ∈ s.citas, c.idCita = idCita) ∧
    ((∀ c ∈ s.citas, c.idCita ≠ idCita) → cancelar_cita s idCita = (false, s)) ∧
    (∀ c : Cita, ({ c with estado := EstadoCita.Cancelada } : Cita).idCita = c.idCita ∧
      ({ c with estado := EstadoCita.Cancelada } : Cita).pacienteId = c.pacienteId ∧
      ({ c with estado := EstadoCita.Cancelada } : Cita).fechaHora = c.fechaHora ∧
      ({ c with estado := EstadoCita.Cancelada } : Cita).motivo = c.motivo) ∧
    (∀ antes c despues, s.citas = antes ++ c :: despues → c.idCita = idCita →
      (∀ c0 ∈ antes, c0.idCita ≠ idCita) →
      cancelar_cita s idCita =
        (true, ⟨s.observadores,
          antes ++ { c with estado := EstadoCita.Cancelada } :: despues,
          s.contadorIdCita⟩) ∧
      obtener_citas_por_paciente (cancelar_cita s idCita).2 c.pacienteId =
        (antes ++ despues).filter
          (fun c0 => c0.pacienteId == c.pacienteId && c0.estado == EstadoCita.Programada)) := by
  have hmem : (s.citas.any fun c => c.idCita == idCita) = true ↔
      ∃ c ∈ s.citas, c.idCita = idCita := by
    simp [List.any_eq_true]
  refine ⟨?_, fun h => ?_, fun c => ⟨rfl, rfl, rfl, rfl⟩,
    fun antes c despues hdec hc hAntes => ?_⟩
  · unfold cancelar_cita
    by_cases hb : (s.citas.any fun c => c.idCita == idCita) = true
    · simpa [hb] using hmem.mp hb
    · simp only [hb, if_false]
      simpa using fun c hcm hid => hb (hmem.mpr ⟨c, hcm, hid⟩)
  · have hb : (s.citas.any fun c => c.idCita == idCita) = false := by
      rw [Bool.eq_false_iff]
      intro hb
      obtain ⟨c, hcm, hid⟩ := hmem.mp hb
      exact h c hcm hid
    simp [cancelar_cita, hb]
  · have hb : (s.citas.any fun c => c.idCita == idCita) = true :=
      hmem.mpr ⟨c, by simp [hdec], hc⟩
    have hb2 : ((antes ++ c :: despues).any fun c0 => c0.idCita == idCita) = true := by
      simp [hc]
    have hres : cancelar_cita s idCita =
        (true, ⟨s.observadores,
          antes ++ { c with estado := EstadoCita.Cancelada } :: despues,
          s.contadorIdCita⟩) := by
      simp only [cancelar_cita, hdec, hb2, if_true]
      rw [cancelaPrimeraCita_append idCita antes c despues hAntes hc]
    refine ⟨hres, ?_⟩
    rw [hres]
    simp only [obtener_citas_por_paciente, List.filter_append, List.filter_cons]
    simp

/-- Claim C6: a successful `registrar_tratamiento` (the date parses as
`YYYY-MM-DD`) creates one treatment carrying the next sequential id and
appends it, in the same call, both to the patient's own history and to the
global ledger; afterwards `obtener_tratamientos_por_paciente` returns the
history in recorded order with the new treatment last, and the ledger's count
of the new treatment's normalised description — the quantity
`obtener_tratamientos_mas_comunes` tallies — grows by one.  A failing call
returns the format error and appends to neither. -/
theorem registrar_tratamiento_espec (s : SistemaHistorialTratamientos)
    (p : Paciente) (fechaStr descripcion odontologo : String) :
    (analizaFecha fechaStr = none →
      registrar_tratamiento s p fechaStr descripcion odontologo = (none, p, s)) ∧
    (∀ f, analizaFecha fechaStr = some f →
      registrar_tratamiento s p fechaStr descripcion odontologo =
        (some ⟨s.contadorIdTratamiento + 1, p.idPaciente, f, descripcion, odontologo⟩,
          ⟨p.idPaciente, p.nombre, p.telefono, p.direccion, p.fechaNacimiento,
            p.historialMedico, p.tratamientos ++
              [⟨s.contadorIdTratamiento + 1, p.idPaciente, f, descripcion, odontologo⟩]⟩,
          ⟨s.registroTratamientos ++
              [⟨s.contadorIdTratamiento + 1, p.idPaciente, f, descripcion, odontologo⟩],
            s.contadorIdTratamiento + 1⟩) ∧
      obtener_tratamientos_por_paciente
          (registrar_tratamiento s p fechaStr descripcion odontologo).2.1 =
        p.tratamientos ++
          [⟨s.contadorIdTratamiento + 1, p.idPaciente, f, descripcion, odontologo⟩] ∧
      (registrar_tratamiento s p fechaStr descripcion
            odontologo).2.2.registroTratamientos.countP
          (fun t2 => claveDescripcion t2 == pyLower (pyStrip descripcion)) =
        s.registroTratamientos.countP
          (fun t2 => claveDescripcion t2 == pyLower (pyStrip descripcion)) + 1) := by
  refine ⟨fun h => by simp [registrar_tratamiento, h], fun f hf => ?_⟩
  have hres : registrar_tratamiento s p fechaStr descripcion odontologo =
      (some ⟨s.contadorIdTratamiento + 1, p.idPaciente, f, descripcion, odontologo⟩,
        ⟨p.idPaciente, p.nombre, p.telefono, p.direccion, p.fechaNacimiento,
          p.historialMedico, p.tratamientos ++
            [⟨s.contadorIdTratamiento + 1, p.idPaciente, f, descripcion, odontologo⟩]⟩,
        ⟨s.registroTratamientos ++
            [⟨s.contadorIdTratamiento + 1, p.idPaciente, f, descripcion, odontologo⟩],
          s.contadorIdTratamiento + 1⟩) := by
    simp [registrar_tratamiento, hf]
  refine ⟨hres, ?_, ?_⟩
  · rw [hres]
    rfl
  · rw [hres]
    simp [List.countP_append, claveDescripcion]

/-- Inversion of a successful `agendar_cita`: the text parsed, no scheduled
appointment occupied the parsed datetime, and the call appended the returned
appointment, which carries the next id and state "Programada". -/
theorem agendar_cita_ok_inv (s : SistemaCitas) (pid : Nat) (fhs motivo : String)
    (nueva : Cita) (s1 : SistemaCitas)
    (h : agendar_cita s pid fhs motivo = (.ok nueva, s1)) :
    ∃ dt, analizaFechaHora fhs = some dt ∧
      (s.citas.any fun c => c.fechaHora == dt && c.estado == EstadoCita.Programada)
        = false ∧
      nueva = ⟨s.contadorIdCita + 1, pid, dt, motivo, EstadoCita.Programada⟩ ∧
      s1 = ⟨s.observadores, s.citas ++ [nueva], s.contadorIdCita + 1⟩ := by
  cases hp : analizaFechaHora fhs with
  | none => simp [agendar_cita, hp] at h
  | some dt =>
    by_cases hany : (s.citas.any fun c =>
        c.fechaHora == dt && c.estado == EstadoCita.Programada) = true
    · simp [agendar_cita, hp, hany] at h
    · rw [Bool.not_eq_true] at hany
      refine ⟨dt, rfl, hany, ?_⟩
      simp only [agendar_cita, hp, hany, Bool.false_eq_true, if_false,
        Prod.mk.injEq, Except.ok.injEq] at h
      obtain ⟨h1, h2⟩ := h
      subst h1
      subst h2
      exact ⟨rfl, rfl⟩

/-- Claim C1: `agendar_cita` fails with the format error exactly when the
text does not parse as `YYYY-MM-DD HH:MM`; when it parses, the call fails
with the slot-conflict error exactly when some existing appointment has the
identical parsed datetime and state "Programada" (appointments at that
datetime with state "Cancelada" do not block), and otherwise appends a new
appointment with state "Programada" and returns it.  In particular a second
call with the identical text conflicts while the first appointment remains
scheduled, and after cancelling the sole scheduled appointment at that
datetime a second call with the same text succeeds. -/
theorem agendar_cita_espec (s : SistemaCitas) (pacienteId : Nat)
    (fechaHoraStr motivo : String) :
    (analizaFechaHora fechaHoraStr = none →
      agendar_cita s pacienteId fechaHoraStr motivo =
        (.error .formatoInvalido, s)) ∧
    (∀ dt, analizaFechaHora fechaHoraStr = some dt →
      ((∃ c ∈ s.citas, c.fechaHora = dt ∧ c.estado = EstadoCita.Programada) →
        agendar_cita s pacienteId fechaHoraStr motivo =
          (.error .horarioOcupado, s)) ∧
      ((∀ c ∈ s.citas, c.fechaHora = dt → c.estado ≠ EstadoCita.Programada) →
        agendar_cita s pacienteId fechaHoraStr motivo =
          (.ok ⟨s.contadorIdCita + 1, pacienteId, dt, motivo, EstadoCita.Programada⟩,
            ⟨s.observadores,
              s.citas ++
                [⟨s.contadorIdCita + 1, pacienteId, dt, motivo, EstadoCita.Programada⟩],
              s.contadorIdCita + 1⟩))) ∧
    (∀ nueva s1, agendar_cita s pacienteId fechaHoraStr motivo = (.ok nueva, s1) →
      nueva ∈ s1.citas ∧ nueva.estado = EstadoCita.Programada ∧
      ∀ pid2 motivo2, agendar_cita s1 pid2 fechaHoraStr motivo2 =
        (.error .horarioOcupado, s1)) ∧
    (∀ nueva s1, agendar_cita s pacienteId fechaHoraStr motivo = (.ok nueva, s1) →
      (∀ c ∈ s.citas, c.idCita ≤ s.contadorIdCita) →
      (cancelar_cita s1 nueva.idCita).1 = true ∧
      ∀ pid2 motivo2, ∃ c2,
        (agendar_cita (cancelar_cita s1 nueva.idCita).2 pid2
          fechaHoraStr motivo2).1 = .ok c2) := by
  refine ⟨fun h => by simp [agendar_cita, h], fun dt hdt => ⟨?_, ?_⟩, ?_, ?_⟩
  · rintro ⟨c, hcm, hfh, hest⟩
    have hany : (s.citas.any fun c0 =>
        c0.fechaHora == dt && c0.estado == EstadoCita.Programada) = true :=
      List.any_eq_true.mpr ⟨c, hcm, by simp [hfh, hest]⟩
    simp [agendar_cita, hdt, hany]
  · intro hno
    have hany : (s.citas.any fun c0 =>
        c0.fechaHora == dt && c0.estado == EstadoCita.Programada) = false := by
      rw [List.any_eq_false]
      intro c hcm hb
      rw [Bool.and_eq_true, beq_iff_eq, beq_iff_eq] at hb
      exact hno c hcm hb.1 hb.2
    simp [agendar_cita, hdt, hany]
  · intro nueva s1 heq
    obtain ⟨dt, hdt, hany, hnueva, hs1⟩ := agendar_cita_ok_inv s pacienteId
      fechaHoraStr motivo nueva s1 heq
    subst hnueva
    subst hs1
    refine ⟨by simp, rfl, fun pid2 motivo2 => ?_⟩
    have hany2 : ((s.citas ++
        [(⟨s.contadorIdCita + 1, pacienteId, dt, motivo,
          EstadoCita.Programada⟩ : Cita)]).any fun c0 =>
        c0.fechaHora == dt && c0.estado == EstadoCita.Programada) = true := by
      rw [List.any_append]
      simp
    simp [agendar_cita, hdt, hany2]
  · intro nueva s1 heq hids
    obtain ⟨dt, hdt, hany, hnueva, hs1⟩ := agendar_cita_ok_inv s pacienteId
      fechaHoraStr motivo nueva s1 heq
    subst hnueva
    subst hs1
    have hAntes : ∀ c0 ∈ s.citas, c0.idCita ≠ s.contadorIdCita + 1 := by
      intro c0 h0
      have := hids c0 h0
      omega
    have hb : ((s.citas ++
        [(⟨s.contadorIdCita + 1, pacienteId, dt, motivo,
          EstadoCita.Programada⟩ : Cita)]).any fun c0 =>
          c0.idCita == s.contadorIdCita + 1) = true := by
      rw [List.any_append]
      simp
    have hcancel : cancelar_cita
        ⟨s.observadores,
          s.citas ++ [⟨s.contadorIdCita + 1, pacienteId, dt, motivo,
            EstadoCita.Programada⟩],
          s.contadorIdCita + 1⟩ (s.contadorIdCita + 1) =
        (true, ⟨s.observadores,
          s.citas ++ [⟨s.contadorIdCita + 1, pacienteId, dt, motivo,
            EstadoCita.Cancelada⟩],
          s.contadorIdCita + 1⟩) := by
      simp only [cancelar_cita, hb, if_true]
      rw [cancelaPrimeraCita_append (s.contadorIdCita + 1) s.citas _ []
        hAntes rfl]
    rw [hcancel]
    refine ⟨rfl, fun pid2 motivo2 => ?_⟩
    have hany3 : ((s.citas ++
        [(⟨s.contadorIdCita + 1, pacienteId, dt, motivo,
          EstadoCita.Cancelada⟩ : Cita)]).any fun c0 =>
        c0.fechaHora == dt && c0.estado == EstadoCita.Programada) = false := by
      rw [List.any_append, Bool.or_eq_false_iff]
      exact ⟨hany, by simp⟩
    exact ⟨⟨s.contadorIdCita + 2, pid2, dt, motivo2, EstadoCita.Programada⟩,
      by simp [agendar_cita, hdt, hany3]⟩

/-- The operations the presentation layer can invoke on one
`SistemaGestionPacientes` that touch its state: register and update (the
lookup and listing methods read only). -/
inductive OpPacientes where
  | registrar (nombre telefono direccion fechaNacimiento historialMedico : String)
  | actualizar (idPac : Nat)
      (nombre telefono direccion fechaNacimiento historialMedico : Option String)

/-- Run a sequence of registry operations, keeping the evolving state. -/
def ejecutaOps : List OpPacientes → SistemaGestionPacientes →
    SistemaGestionPacientes
  | [], s => s
  | .registrar n t d f h :: resto, s =>
    ejecutaOps resto (registrar_paciente s n t d f h).2
  | .actualizar i n t d f h :: resto, s =>
    ejecutaOps resto (actualizar_paciente s i n t d f h).2

/-- A first-match replacement whose function keeps the id leaves the list of
ids untouched. -/
theorem map_id_actualizaPrimerPaciente (idPac : Nat) (f : Paciente → Paciente)
    (hf : ∀ p, (f p).idPaciente = p.idPaciente) (l : List Paciente) :
    (actualizaPrimerPaciente idPac f l).map Paciente.idPaciente =
      l.map Paciente.idPaciente := by
  induction l with
  | nil => rfl
  | cons p resto ih =>
    by_cases hp : p.idPaciente = idPac
    · simp [actualizaPrimerPaciente, hp, hf]
    · simp [actualizaPrimerPaciente, hp, ih]

/-- `actualizar_paciente` never changes any patient's id nor the number of
patients. -/
theorem ids_actualizar_paciente (s : SistemaGestionPacientes) (i : Nat)
    (n t d f h : Option String) :
    (actualizar_paciente s i n t d f h).2.pacientes.map Paciente.idPaciente =
      s.pacientes.map Paciente.idPaciente := by
  cases hb : buscar_paciente_por_id s i with
  | none => simp [actualizar_paciente, hb]
  | some p =>
    simp only [actualizar_paciente, hb]
    exact map_id_actualizaPrimerPaciente i
      (fun p2 => actualizar_info p2 n t d f h) (fun q => rfl) s.pacientes

/-- Running a concatenation of operation sequences runs them in order. -/
theorem ejecutaOps_append (ops l : List OpPacientes)
    (s : SistemaGestionPacientes) :
    ejecutaOps (ops ++ l) s = ejecutaOps l (ejecutaOps ops s) := by
  induction ops generalizing s with
  | nil => rfl
  | cons op resto ih => cases op <;> exact ih _

/-- The registry invariant: the stored ids are exactly `1, 2, …, n` in
insertion order and the counter sits one past them. -/
def invarianteRegistro (s : SistemaGestionPacientes) : Prop :=
  s.pacientes.map Paciente.idPaciente = List.range' 1 s.pacientes.length ∧
    s.siguienteIdPaciente = s.pacientes.length + 1

/-- Every operation sequence preserves the registry invariant. -/
theorem invarianteRegistro_ejecutaOps (ops : List OpPacientes) :
    ∀ s, invarianteRegistro s → invarianteRegistro (ejecutaOps ops s) := by
  induction ops with
  | nil => exact fun s hs => hs
  | cons op resto ih =>
    intro s hs
    obtain ⟨hids, hcont⟩ := hs
    cases op with
    | registrar n t d f h =>
      refine ih _ ?_
      unfold registrar_paciente
      cases hf : analizaFecha f with
      | none => exact ⟨hids, hcont⟩
      | some fe =>
        constructor
        · simp only [List.map_append, List.length_append, hids, hcont,
            List.map_cons, List.map_nil, List.length_cons, List.length_nil]
          rw [show s.pacientes.length + (0 + 1) = 1 + s.pacientes.length by omega,
            ← List.range'_append_1 1 s.pacientes.length 1]
          simp
        · simp [hcont]
    | actualizar i n t d f h =>
      refine ih _ ?_
      constructor
      · rw [ids_actualizar_paciente]
        have hlen : (actualizar_paciente s i n t d f h).2.pacientes.length =
            s.pacientes.length := by
          have := congrArg List.length (ids_actualizar_paciente s i n t d f h)
          simpa using this
        rw [hlen]
        exact hids
      · have : (actualizar_paciente s i n t d f h).2.siguienteIdPaciente =
            s.siguienteIdPaciente := by
          unfold actualizar_paciente
          cases hb : buscar_paciente_por_id s i <;> rfl
        have hlen : (actualizar_paciente s i n t d f h).2.pacientes.length =
            s.pacientes.length := by
          have := congrArg List.length (ids_actualizar_paciente s i n t d f h)
          simpa using this
        rw [this, hlen]
        exact hcont

/-- Claim C4: over any sequence of register and update calls starting from a
fresh registry, the stored patient ids are assigned sequentially starting at
1, are strictly increasing and unique, and the counter never falls back (so
an id is never reused); `actualizar_paciente` never changes any patient's id
and never deletes a patient; and any further operation only ever extends the
id sequence on the right. -/
theorem ids_pacientes_espec (ops : List OpPacientes) :
    ((ejecutaOps ops sistemaPacientesInicial).pacientes.map Paciente.idPaciente =
      List.range' 1 (ejecutaOps ops sistemaPacientesInicial).pacientes.length) ∧
    (ejecutaOps ops sistemaPacientesInicial).siguienteIdPaciente =
      (ejecutaOps ops sistemaPacientesInicial).pacientes.length + 1 ∧
    ((ejecutaOps ops sistemaPacientesInicial).pacientes.map
      Paciente.idPaciente).Pairwise (· < ·) ∧
    ((ejecutaOps ops sistemaPacientesInicial).pacientes.map
      Paciente.idPaciente).Nodup ∧
    (∀ i n t d f h,
      (actualizar_paciente (ejecutaOps ops sistemaPacientesInicial)
          i n t d f h).2.pacientes.map Paciente.idPaciente =
        (ejecutaOps ops sistemaPacientesInicial).pacientes.map
          Paciente.idPaciente) ∧
    (∀ op, ∃ nuevos,
      (ejecutaOps (ops ++ [op]) sistemaPacientesInicial).pacientes.map
          Paciente.idPaciente =
        (ejecutaOps ops sistemaPacientesInicial).pacientes.map
          Paciente.idPaciente ++ nuevos) := by
  have hinv : invarianteRegistro (ejecutaOps ops sistemaPacientesInicial) :=
    invarianteRegistro_ejecutaOps ops sistemaPacientesInicial ⟨rfl, rfl⟩
  obtain ⟨hids, hcont⟩ := hinv
  have hpair : ((ejecutaOps ops sistemaPacientesInicial).pacientes.map
      Paciente.idPaciente).Pairwise (· < ·) := by
    rw [hids]
    exact List.pairwise_lt_range' 1 _
  refine ⟨hids, hcont, hpair, hpair.imp (fun hlt => Nat.ne_of_lt hlt),
    ids_actualizar_paciente _, fun op => ?_⟩
  rw [ejecutaOps_append ops [op] sistemaPacientesInicial]
  cases op with
  | registrar n t d f h =>
    cases hf : analizaFecha f with
    | none =>
      refine ⟨[], ?_⟩
      show (registrar_paciente (ejecutaOps ops sistemaPacientesInicial)
        n t d f h).2.pacientes.map Paciente.idPaciente = _
      simp [registrar_paciente, hf]
    | some fe =>
      refine ⟨[(ejecutaOps ops sistemaPacientesInicial).siguienteIdPaciente], ?_⟩
      show (registrar_paciente (ejecutaOps ops sistemaPacientesInicial)
        n t d f h).2.pacientes.map Paciente.idPaciente = _
      simp [registrar_paciente, hf]
  | actualizar i n t d f h =>
    refine ⟨[], ?_⟩
    show (actualizar_paciente (ejecutaOps ops sistemaPacientesInicial)
      i n t d f h).2.pacientes.map Paciente.idPaciente = _
    rw [ids_actualizar_paciente]
    simp

/-- Concatenation of a list of report lines (used only to state what the
report loop produces). -/
def concatena : List String → String
  | [] => ""
  | s :: resto => s ++ concatena resto

/-- The report loop over the appointments equals, for any starting
accumulator, the concatenated lines of exactly the appointments whose date
component matches, together with their number. -/
theorem bucle_reporte (nombreDe : Nat → String) (fechaObjetivo : Fecha)
    (citas : List Cita) : ∀ (ini : String) (n : Nat),
    citas.foldl (fun (acc : String × Nat) c =>
        if c.fechaHora.fecha == fechaObjetivo then
          (acc.1 ++ lineaCita nombreDe c, acc.2 + 1)
        else acc) (ini, n) =
      (ini ++ concatena ((citas.filter
          (fun c => c.fechaHora.fecha == fechaObjetivo)).map (lineaCita nombreDe)),
        n + (citas.filter (fun c => c.fechaHora.fecha == fechaObjetivo)).length) := by
  induction citas with
  | nil =>
    intro ini n
    simp [concatena]
  | cons c resto ih =>
    intro ini n
    by_cases hc : (c.fechaHora.fecha == fechaObjetivo) = true
    · simp only [List.foldl_cons, hc, if_true, List.filter_cons, List.map_cons,
        concatena, List.length_cons]
      rw [ih]
      rw [Prod.mk.injEq]
      exact ⟨String.append_assoc ini (lineaCita nombreDe c) _, by omega⟩
    · rw [Bool.not_eq_true] at hc
      simp only [List.foldl_cons, hc, Bool.false_eq_true, if_false,
        List.filter_cons, List.length_cons]
      rw [ih]

/-- Claim C9: the appointments-by-day report lists exactly the appointments
whose date component equals the target date — their state is never consulted,
so cancelled appointments are listed next to scheduled ones — one line per
appointment naming the patient, the zero-padded HH:MM time and the reason;
a missing or empty date input yields the cancellation text and an unparsable
one the invalid-format text, returned as report text rather than raised (the
modelled operation is a pure function of the appointment collection, which it
cannot modify). -/
theorem reporte_citas_por_dia_espec (nombreDe : Nat → String)
    (citas : List Cita) :
    reporte_citas_por_dia_generar none nombreDe citas =
      "Generación de reporte cancelada." ∧
    reporte_citas_por_dia_generar (some "") nombreDe citas =
      "Generación de reporte cancelada." ∧
    (∀ fechaStr, fechaStr ≠ "" → analizaFecha fechaStr = none →
      reporte_citas_por_dia_generar (some fechaStr) nombreDe citas =
        "Formato de fecha inválido. Use AAAA-MM-DD.") ∧
    (∀ fechaStr fechaObjetivo, fechaStr ≠ "" →
      analizaFecha fechaStr = some fechaObjetivo →
      reporte_citas_por_dia_generar (some fechaStr) nombreDe citas =
        cabeceraReporte fechaStr ++
          concatena ((citas.filter
            (fun c => c.fechaHora.fecha == fechaObjetivo)).map
              (lineaCita nombreDe)) ++
          (if (citas.filter
              (fun c => c.fechaHora.fecha == fechaObjetivo)).length = 0 then
            "No hay citas programadas para esta fecha.\n" else "") ++
          "\nTotal de citas: " ++
          toString (citas.filter
            (fun c => c.fechaHora.fecha == fechaObjetivo)).length ++ "\n") := by
  refine ⟨rfl, rfl, fun fechaStr hne hf => ?_, fun fechaStr fechaObjetivo hne hf => ?_⟩
  · simp [reporte_citas_por_dia_generar, hne, hf]
  · have hl := bucle_reporte nombreDe fechaObjetivo citas "" 0
    simp only [reporte_citas_por_dia_generar, hne, if_false, hf, hl,
      String.empty_append, Nat.zero_add]

/-- The keys of a scan in first-encounter order (used only to state in which
order the tally dictionary discovers its groups). -/
def primerasApariciones (l : List String) : List String :=
  l.foldl (fun acc k => if acc.contains k then acc else acc ++ [k]) []

/-- The value a key holds in an association list (0 when absent), reading the
first matching entry as a Python `dict` built without key collisions does. -/
def cuentaDe (l : List (String × Nat)) (k : String) : Nat :=
  match l with
  | [] => 0
  | (k0, n) :: resto => if k0 = k then n else cuentaDe resto k

/-- Bumping a key either leaves the key sequence alone (key present) or
appends the key (key new), exactly as a Python `dict` assignment does. -/
theorem claves_incrementaClave (k : String) (l : List (String × Nat)) :
    (incrementaClave k l).map Prod.fst =
      if (l.map Prod.fst).contains k then l.map Prod.fst
      else l.map Prod.fst ++ [k] := by
  induction l with
  | nil => simp [incrementaClave]
  | cons par resto ih =>
    obtain ⟨k0, n⟩ := par
    by_cases hk : k0 = k
    · simp [incrementaClave, hk]
    · have hne : (k0 == k) = false := by simp [hk]
      simp only [incrementaClave, hk, if_false, List.map_cons, List.contains_cons]
      rw [ih]
      by_cases hc : k ∈ resto.map Prod.fst
      · simp [hc, Ne.symm hk]
      · simp [hc, Ne.symm hk]

/-- The tally keys are the normalised descriptions in first-encounter order. -/
theorem claves_conteo_aux (ts : List Tratamiento) :
    ∀ acc : List (String × Nat),
      ((ts.foldl (fun a t => incrementaClave (claveDescripcion t) a) acc).map
        Prod.fst) =
      (ts.map claveDescripcion).foldl
        (fun a k => if a.contains k then a else a ++ [k]) (acc.map Prod.fst) := by
  induction ts with
  | nil => intro acc; rfl
  | cons t resto ih =>
    intro acc
    simp only [List.foldl_cons, List.map_cons]
    rw [ih, claves_incrementaClave]

/-- The tally keys of the whole ledger, in first-encounter order. -/
theorem claves_conteo (ts : List Tratamiento) :
    (conteoTratamientos ts).map Prod.fst =
      primerasApariciones (ts.map claveDescripcion) :=
  claves_conteo_aux ts []

/-- A key appears among the first encounters exactly when it appears at all. -/
theorem mem_primerasApariciones (l : List String) (k : String) :
    k ∈ primerasApariciones l ↔ k ∈ l := by
  have aux : ∀ (l2 : List String) (acc : List String),
      (k ∈ l2.foldl (fun a k0 => if a.contains k0 then a else a ++ [k0]) acc ↔
        k ∈ acc ∨ k ∈ l2) := by
    intro l2
    induction l2 with
    | nil => intro acc; simp
    | cons k0 resto ih =>
      intro acc
      simp only [List.foldl_cons]
      rw [ih]
      by_cases hc : k0 ∈ acc
      · rw [if_pos (by simpa using hc)]
        simp only [List.mem_cons]
        constructor
        · rintro (h | h)
          · exact Or.inl h
          · exact Or.inr (Or.inr h)
        · rintro (h | rfl | h)
          · exact Or.inl h
          · exact Or.inl hc
          · exact Or.inr h
      · rw [if_neg (by simpa using hc)]
        simp only [List.mem_append, List.mem_cons]
        constructor
        · rintro ((h | rfl | h0) | h)
          · exact Or.inl h
          · exact Or.inr (Or.inl rfl)
          · exact absurd h0 (List.not_mem_nil k)
          · exact Or.inr (Or.inr h)
        · rintro (h | rfl | h)
          · exact Or.inl (Or.inl h)
          · exact Or.inl (Or.inr (Or.inl rfl))
          · exact Or.inr h
  rw [primerasApariciones, aux l []]
  simp

/-- First encounters never repeat a key. -/
theorem nodup_primerasApariciones (l : List String) :
    (primerasApariciones l).Nodup := by
  have aux : ∀ (l2 : List String) (acc : List String), acc.Nodup →
      (l2.foldl (fun a k0 => if a.contains k0 then a else a ++ [k0]) acc).Nodup := by
    intro l2
    induction l2 with
    | nil => exact fun acc h => h
    | cons k0 resto ih =>
      intro acc hacc
      simp only [List.foldl_cons]
      by_cases hc : acc.contains k0
      · rw [if_pos hc]
        exact ih acc hacc
      · rw [if_neg hc]
        refine ih _ ?_
        rw [List.nodup_append]
        exact ⟨hacc, List.nodup_singleton k0,
          by simpa [List.disjoint_singleton] using hc⟩
  exact aux l [] List.nodup_nil

/-- Bumping a key raises that key's value by one. -/
theorem cuentaDe_incrementaClave_misma (k : String) (l : List (String × Nat)) :
    cuentaDe (incrementaClave k l) k = cuentaDe l k + 1 := by
  induction l with
  | nil => simp [incrementaClave, cuentaDe]
  | cons par resto ih =>
    obtain ⟨k0, n⟩ := par
    by_cases hk : k0 = k
    · simp [incrementaClave, cuentaDe, hk]
    · simp [incrementaClave, cuentaDe, hk, ih]

/-- Bumping a key leaves every other key's value alone. -/
theorem cuentaDe_incrementaClave_otra (k k2 : String) (hk : k2 ≠ k)
    (l : List (String × Nat)) :
    cuentaDe (incrementaClave k l) k2 = cuentaDe l k2 := by
  have hk2 : k ≠ k2 := fun h => hk h.symm
  induction l with
  | nil => simp [incrementaClave, cuentaDe, hk2]
  | cons par resto ih =>
    obtain ⟨k0, n⟩ := par
    by_cases h0 : k0 = k
    · simp [incrementaClave, cuentaDe, h0, hk2]
    · by_cases h2 : k0 = k2
      · simp [incrementaClave, cuentaDe, h0, h2, hk]
      · simp [incrementaClave, cuentaDe, h0, h2, ih]

/-- The tally value of any key is the number of ledger treatments whose
normalised description is that key. -/
theorem cuentaDe_conteo_aux (ts : List Tratamiento) :
    ∀ (acc : List (String × Nat)) (k : String),
      cuentaDe (ts.foldl (fun a t => incrementaClave (claveDescripcion t) a) acc) k =
        cuentaDe acc k + ts.countP (fun t => claveDescripcion t == k) := by
  induction ts with
  | nil => intro acc k; simp
  | cons t resto ih =>
    intro acc k
    simp only [List.foldl_cons, List.countP_cons]
    rw [ih]
    by_cases hk : claveDescripcion t = k
    · subst hk
      rw [cuentaDe_incrementaClave_misma]
      simp
      omega
    · rw [cuentaDe_incrementaClave_otra _ _ (fun h => hk h.symm)]
      simp [hk]

/-- In an association list with distinct keys, membership of a pair is
membership of the key carrying that value. -/
theorem mem_assoc_nodup (l : List (String × Nat))
    (h : (l.map Prod.fst).Nodup) (k : String) (n : Nat) :
    (k, n) ∈ l ↔ (k ∈ l.map Prod.fst ∧ cuentaDe l k = n) := by
  induction l with
  | nil => simp
  | cons par resto ih =>
    obtain ⟨k0, n0⟩ := par
    simp only [List.map_cons, List.nodup_cons] at h
    obtain ⟨hk0, hresto⟩ := h
    constructor
    · intro hm
      rcases List.mem_cons.mp hm with heq | hm2
      · rw [Prod.mk.injEq] at heq
        obtain ⟨rfl, rfl⟩ := heq
        exact ⟨by simp, by simp [cuentaDe]⟩
      · obtain ⟨hmk, hcnt⟩ := (ih hresto).mp hm2
        have hne : k0 ≠ k := fun he => hk0 (he ▸ hmk)
        exact ⟨by rw [List.map_cons]; exact List.mem_cons_of_mem _ hmk,
          by simp [cuentaDe, hne, hcnt]⟩
    · rintro ⟨hmk, rfl⟩
      by_cases he : k0 = k
      · subst he
        simp [cuentaDe]
      · have hmk3 : k ∈ (k0, n0).1 :: resto.map Prod.fst := by
          rw [← List.map_cons]
          exact hmk
        have hmk2 : k ∈ resto.map Prod.fst := by
          rcases List.mem_cons.mp hmk3 with he2 | h2
          · exact absurd he2.symm he
          · exact h2
        have hmem := (ih hresto).mpr ⟨hmk2, by simp [cuentaDe, he]⟩
        exact List.mem_cons_of_mem _ hmem

/-- The shape of one insertion step: the new element lands right after the
longest prefix of elements whose count is at least its own. -/
theorem insertaDesc_eq (x : String × Nat) (l : List (String × Nat)) :
    insertaDesc x l =
      l.takeWhile (fun y => decide (x.2 ≤ y.2)) ++
        x :: l.dropWhile (fun y => decide (x.2 ≤ y.2)) := by
  induction l with
  | nil => simp [insertaDesc]
  | cons y resto ih =>
    by_cases hxy : x.2 > y.2
    · have hp : ¬x.2 ≤ y.2 := by omega
      simp [insertaDesc, hxy, hp, List.takeWhile_cons, List.dropWhile_cons]
    · have hp : x.2 ≤ y.2 := by omega
      simp [insertaDesc, hxy, hp, List.takeWhile_cons, List.dropWhile_cons, ih]

/-- Inserting is a permutation with pushing on the front. -/
theorem insertaDesc_perm (x : String × Nat) (l : List (String × Nat)) :
    (insertaDesc x l).Perm (x :: l) := by
  induction l with
  | nil => exact List.Perm.refl _
  | cons y resto ih =>
    simp only [insertaDesc]
    by_cases hxy : x.2 > y.2
    · rw [if_pos hxy]
    · rw [if_neg hxy]
      exact (ih.cons y).trans (List.Perm.swap x y resto)

/-- Insertion keeps the list sorted by count, descending. -/
theorem insertaDesc_pairwise (x : String × Nat) (l : List (String × Nat))
    (h : l.Pairwise (fun a b => b.2 ≤ a.2)) :
    (insertaDesc x l).Pairwise (fun a b => b.2 ≤ a.2) := by
  induction l with
  | nil => simp [insertaDesc]
  | cons y resto ih =>
    rw [List.pairwise_cons] at h
    obtain ⟨hy, hresto⟩ := h
    simp only [insertaDesc]
    by_cases hxy : x.2 > y.2
    · rw [if_pos hxy, List.pairwise_cons]
      refine ⟨?_, List.pairwise_cons.mpr ⟨hy, hresto⟩⟩
      intro z hz
      rcases List.mem_cons.mp hz with rfl | hz2
      · omega
      · have := hy z hz2
        omega
    · rw [if_neg hxy, List.pairwise_cons]
      refine ⟨?_, ih hresto⟩
      intro z hz
      rcases List.mem_cons.mp ((insertaDesc_perm x resto).mem_iff.mp hz) with
        rfl | hz2
      · omega
      · exact hy z hz2

/-- In a count-descending list, everything the insertion point skips past is
strictly smaller than the inserted count. -/
theorem mem_dropWhile_menor (x : String × Nat) (l : List (String × Nat))
    (hsort : l.Pairwise (fun a b => b.2 ≤ a.2)) (b : String × Nat)
    (hb : b ∈ l.dropWhile (fun y => decide (x.2 ≤ y.2))) : b.2 < x.2 := by
  induction l with
  | nil => simp at hb
  | cons y resto ih =>
    rw [List.pairwise_cons] at hsort
    obtain ⟨hy, hresto⟩ := hsort
    rw [List.dropWhile_cons] at hb
    by_cases hp : x.2 ≤ y.2
    · rw [if_pos (by simp [hp])] at hb
      exact ih hresto hb
    · rw [if_neg (by simp [hp])] at hb
      rcases List.mem_cons.mp hb with rfl | hb2
      · omega
      · have := hy b hb2
        omega

/-- Invariant of the insertion-sort fold: the accumulated list stays sorted
by count descending, is a permutation of the elements processed so far, and
keeps every equal-count pair in the order the processed prefix had. -/
theorem ordena_estable_aux (resto : List (String × Nat)) :
    ∀ (procesado acc : List (String × Nat)),
      acc.Pairwise (fun a b => b.2 ≤ a.2) →
      acc.Perm procesado →
      (∀ a b : String × Nat, [a, b].Sublist acc → a.2 = b.2 →
        [a, b].Sublist procesado) →
      ((resto.foldl (fun ac x => insertaDesc x ac) acc).Pairwise
          (fun a b => b.2 ≤ a.2) ∧
        (resto.foldl (fun ac x => insertaDesc x ac) acc).Perm
          (procesado ++ resto) ∧
        (∀ a b : String × Nat,
          [a, b].Sublist (resto.foldl (fun ac x => insertaDesc x ac) acc) →
          a.2 = b.2 → [a, b].Sublist (procesado ++ resto))) := by
  induction resto with
  | nil =>
    intro procesado acc hsort hperm hstab
    refine ⟨hsort, by simpa using hperm, fun a b hs he => ?_⟩
    simpa using hstab a b hs he
  | cons x resto2 ih =>
    intro procesado acc hsort hperm hstab
    simp only [List.foldl_cons]
    have hties : ∀ a b : String × Nat, [a, b].Sublist (insertaDesc x acc) →
        a.2 = b.2 → [a, b].Sublist (procesado ++ [x]) := by
      intro a b hs he
      rw [insertaDesc_eq] at hs
      obtain ⟨s1, s2, hsplit, hs1, hs2⟩ := List.sublist_append_iff.mp hs
      cases s1 with
      | nil =>
        rw [List.nil_append] at hsplit
        subst hsplit
        rcases List.sublist_cons_iff.mp hs2 with h2 | ⟨r, hr, hrsub⟩
        · have hab : [a, b].Sublist acc :=
            h2.trans (List.dropWhile_sublist _)
          exact (hstab a b hab he).trans (List.sublist_append_left procesado [x])
        · injection hr with ha hr2
          subst ha
          subst hr2
          have hbmem : b ∈ acc.dropWhile (fun y => decide (a.2 ≤ y.2)) :=
            List.singleton_sublist.mp hrsub
          have hlt : b.2 < a.2 := mem_dropWhile_menor a acc hsort b hbmem
          exact absurd he (by omega)
      | cons a1 s1tail =>
        cases s1tail with
        | nil =>
          rw [List.singleton_append] at hsplit
          injection hsplit with ha hs2eq
          subst ha
          subst hs2eq
          rcases List.sublist_cons_iff.mp hs2 with h2 | ⟨r, hr, hrsub⟩
          · have hab : [a, b].Sublist acc := by
              rw [← List.takeWhile_append_dropWhile
                (fun y => decide (x.2 ≤ y.2)) (l := acc)]
              exact List.Sublist.append hs1 h2
            exact (hstab a b hab he).trans
              (List.sublist_append_left procesado [x])
          · injection hr with hb hr2
            subst hb
            have ha_acc : a ∈ acc :=
              (List.takeWhile_sublist _).subset (List.singleton_sublist.mp hs1)
            have ha_proc : a ∈ procesado := hperm.mem_iff.mp ha_acc
            exact List.Sublist.append (List.singleton_sublist.mpr ha_proc)
              (List.Sublist.refl [b])
        | cons a2 s1tail2 =>
          simp only [List.cons_append, List.cons.injEq] at hsplit
          obtain ⟨rfl, rfl, htail⟩ := hsplit
          have hnil : s1tail2 = [] ∧ s2 = [] := by
            constructor
            · cases s1tail2 with
              | nil => rfl
              | cons z zs => simp at htail
            · cases s2 with
              | nil => rfl
              | cons z zs =>
                cases s1tail2 with
                | nil => simp at htail
                | cons w ws => simp at htail
          obtain ⟨rfl, rfl⟩ := hnil
          have hab : [a, b].Sublist acc := by
            have := hs1.trans (List.takeWhile_sublist _)
            simpa using this
          exact (hstab a b hab he).trans (List.sublist_append_left procesado [x])
    have hstep := ih (procesado ++ [x]) (insertaDesc x acc)
      (insertaDesc_pairwise x acc hsort)
      ((insertaDesc_perm x acc).trans ((hperm.cons x).trans
        (List.perm_append_singleton x procesado).symm))
      hties
    obtain ⟨h1, h2, h3⟩ := hstep
    refine ⟨h1, ?_, ?_⟩
    · rw [List.append_assoc, List.singleton_append] at h2
      exact h2
    · intro a b hs he
      have := h3 a b hs he
      rw [List.append_assoc, List.singleton_append] at this
      exact this

/-- `ordenaDesc` is a sorted-by-count-descending, stable reordering of its
input: a permutation, count-descending, and equal-count pairs keep the
input's relative order. -/
theorem ordenaDesc_espec (l : List (String × Nat)) :
    (ordenaDesc l).Pairwise (fun a b => b.2 ≤ a.2) ∧
      (ordenaDesc l).Perm l ∧
      (∀ a b : String × Nat, [a, b].Sublist (ordenaDesc l) → a.2 = b.2 →
        [a, b].Sublist l) := by
  have h := ordena_estable_aux l [] [] List.Pairwise.nil (List.Perm.refl [])
    (fun a b hs he => by simp at hs)
  obtain ⟨h1, h2, h3⟩ := h
  refine ⟨h1, by simpa using h2, fun a b hs he => ?_⟩
  simpa using h3 a b hs he

/-- Claim C5: `obtener_tratamientos_mas_comunes` groups the ledger treatments
by description normalised to trimmed lowercase (the tally's keys are exactly
the normalised descriptions, first-encounter order, each counted by its
number of occurrences), sorts the groups by count descending with ties kept
in first-encounter order (the sort is a permutation of the tally, pairwise
count-descending, and equal-count pairs keep the tally's relative order),
truncates to the first `topN` entries, and returns the empty mapping on an
empty ledger.  On descriptions "Cleaning", "cleaning ", "Filling" with
`topN = 2` it returns exactly `[("cleaning", 2), ("filling", 1)]`. -/
theorem tratamientos_mas_comunes_espec (s : SistemaHistorialTratamientos)
    (topN : Nat) :
    (s.registroTratamientos = [] →
      obtener_tratamientos_mas_comunes s topN = []) ∧
    obtener_tratamientos_mas_comunes s topN =
      (ordenaDesc (conteoTratamientos s.registroTratamientos)).take topN ∧
    (conteoTratamientos s.registroTratamientos).map Prod.fst =
      primerasApariciones (s.registroTratamientos.map claveDescripcion) ∧
    (∀ k n, (k, n) ∈ conteoTratamientos s.registroTratamientos ↔
      (k ∈ s.registroTratamientos.map claveDescripcion ∧
        n = s.registroTratamientos.countP
          (fun t => claveDescripcion t == k))) ∧
    (ordenaDesc (conteoTratamientos s.registroTratamientos)).Pairwise
      (fun a b => b.2 ≤ a.2) ∧
    (ordenaDesc (conteoTratamientos s.registroTratamientos)).Perm
      (conteoTratamientos s.registroTratamientos) ∧
    (∀ a b : String × Nat,
      [a, b].Sublist (ordenaDesc (conteoTratamientos s.registroTratamientos)) →
      a.2 = b.2 → [a, b].Sublist (conteoTratamientos s.registroTratamientos)) ∧
    (obtener_tratamientos_mas_comunes s topN).length =
      min topN (conteoTratamientos s.registroTratamientos).length ∧
    obtener_tratamientos_mas_comunes
        ⟨[⟨1, 1, ⟨2024, 1, 1⟩, "Cleaning", "Dr"⟩,
          ⟨2, 1, ⟨2024, 1, 2⟩, "cleaning ", "Dr"⟩,
          ⟨3, 1, ⟨2024, 1, 3⟩, "Filling", "Dr"⟩], 3⟩ 2 =
      [("cleaning", 2), ("filling", 1)] := by
  obtain ⟨hsort, hperm, hstab⟩ :=
    ordenaDesc_espec (conteoTratamientos s.registroTratamientos)
  have hnd : ((conteoTratamientos s.registroTratamientos).map Prod.fst).Nodup := by
    rw [claves_conteo]
    exact nodup_primerasApariciones _
  have htake : obtener_tratamientos_mas_comunes s topN =
      (ordenaDesc (conteoTratamientos s.registroTratamientos)).take topN := by
    cases hr : s.registroTratamientos with
    | nil =>
      simp [obtener_tratamientos_mas_comunes, hr, conteoTratamientos, ordenaDesc]
    | cons t resto => simp [obtener_tratamientos_mas_comunes, hr]
  refine ⟨fun h => by simp [obtener_tratamientos_mas_comunes, h], htake,
    claves_conteo _, fun k n => ?_, hsort, hperm, hstab, ?_, by decide⟩
  · rw [mem_assoc_nodup _ hnd]
    have hcnt : cuentaDe (conteoTratamientos s.registroTratamientos) k =
        s.registroTratamientos.countP (fun t => claveDescripcion t == k) := by
      rw [conteoTratamientos, cuentaDe_conteo_aux]
      simp [cuentaDe]
    constructor
    · rintro ⟨hk, hval⟩
      rw [claves_conteo, mem_primerasApariciones] at hk
      exact ⟨hk, by rw [← hval, hcnt]⟩
    · rintro ⟨hk, rfl⟩
      refine ⟨?_, hcnt⟩
      rw [claves_conteo, mem_primerasApariciones]
      exact hk
  · rw [htake, List.length_take, hperm.length_eq]

/-- The end-to-end appointment flow on concrete data: scheduling
"2024-06-01 10:00" succeeds, a second identical schedule hits the slot
conflict while the first stays "Programada", cancelling the first frees the
slot, and the re-schedule then succeeds. -/
theorem ejemplo_flujo_citas :
    agendar_cita sistemaCitasInicial 1 "2024-06-01 10:00" "Checkup" =
      (.ok ⟨1, 1, ⟨⟨2024, 6, 1⟩, 10, 0⟩, "Checkup", .Programada⟩,
        ⟨[], [⟨1, 1, ⟨⟨2024, 6, 1⟩, 10, 0⟩, "Checkup", .Programada⟩], 1⟩) ∧
    agendar_cita
        ⟨[], [⟨1, 1, ⟨⟨2024, 6, 1⟩, 10, 0⟩, "Checkup", .Programada⟩], 1⟩
        2 "2024-06-01 10:00" "Otro" =
      (.error .horarioOcupado,
        ⟨[], [⟨1, 1, ⟨⟨2024, 6, 1⟩, 10, 0⟩, "Checkup", .Programada⟩], 1⟩) ∧
    cancelar_cita
        ⟨[], [⟨1, 1, ⟨⟨2024, 6, 1⟩, 10, 0⟩, "Checkup", .Programada⟩], 1⟩ 1 =
      (true,
        ⟨[], [⟨1, 1, ⟨⟨2024, 6, 1⟩, 10, 0⟩, "Checkup", .Cancelada⟩], 1⟩) ∧
    (agendar_cita
        ⟨[], [⟨1, 1, ⟨⟨2024, 6, 1⟩, 10, 0⟩, "Checkup", .Cancelada⟩], 1⟩
        2 "2024-06-01 10:00" "Otro").1 =
      .ok ⟨2, 2, ⟨⟨2024, 6, 1⟩, 10, 0⟩, "Otro", .Programada⟩ :=
  ⟨rfl, rfl, rfl, rfl⟩

/-- Concrete behaviour of the embedded `strptime`: `%d` accepts a
space-padded single-digit day and the format's whitespace matches any
nonempty whitespace run, while double padding, a padded zero, a padded
month and a missing separator still fail. -/
theorem ejemplos_analisis_fechas :
    analizaFecha "1980-05- 5" = some ⟨1980, 5, 5⟩ ∧
    analizaFecha "2024-06- 5" = some ⟨2024, 6, 5⟩ ∧
    analizaFecha "2024-06-  5" = none ∧
    analizaFecha "2024-06- 0" = none ∧
    analizaFecha "2024- 6-05" = none ∧
    analizaFechaHora "2024-06-01  10:00" = some ⟨⟨2024, 6, 1⟩, 10, 0⟩ ∧
    analizaFechaHora "2024-06-01\t10:00" = some ⟨⟨2024, 6, 1⟩, 10, 0⟩ ∧
    analizaFechaHora "2024-06-01 \t 10:00" = some ⟨⟨2024, 6, 1⟩, 10, 0⟩ ∧
    analizaFechaHora "2024-06- 5 10:00" = some ⟨⟨2024, 6, 5⟩, 10, 0⟩ ∧
    analizaFechaHora "2024-06-0110:00" = none := by
  decide
